import Mathlib

/-!
# Verification of the OnlineStoreApi query & recommendation engine

Shallow embedding of the core of the repository: the in-memory entity
store (`app/database/memory_db.py`), the filter/sort/pagination pipeline
(`app/routers/products.py`) and the recommendation service
(`app/services/recommendation.py`).

Modelling conventions:
* Python floats are modelled as exact rationals (`ℚ`); `round(x, 2)` is
  modelled as round-half-to-even at two decimals (Python's tie rule).
* Python dicts keyed by auto-incremented ids are modelled as lists in
  insertion order (Python 3.7+ dicts preserve insertion order, and ids
  are unique by construction), with `find?` playing the role of lookup.
* Python's `sorted`/`list.sort` with `key=f, reverse=rev` is a stable
  sort; it is modelled by `List.insertionSort` (a stable sort) with the
  relation `f a ≤ f b` (ascending) or `f b ≤ f a` (descending).
* `page` and `page_size` reach `paginate` only after FastAPI validation
  (`ge=1`), so they are modelled as natural numbers and all theorems
  carry the corresponding bounds.
-/

namespace OnlineStore

/-- Stock status enum from `app/schemas/common.py` (`StockStatus`). -/
inductive StockStatus where
  | in_stock
  | low_stock
  | out_of_stock
  | pre_order
deriving DecidableEq

/-- A stored product record, as built by `InMemoryDatabase.create_product`
(`app/database/memory_db.py`).  The free-form payload fields
(`description`, `features`, `images`) play no role in any claim and are
omitted. -/
structure Product where
  id : ℕ
  name : String
  category_id : ℤ
  seller_id : ℤ
  price : ℚ
  discount_percentage : ℚ
  final_price : ℚ
  stock_status : StockStatus
  average_rating : ℚ
  review_count : ℕ
  created_at : String
  updated_at : String
deriving DecidableEq

/-- A stored review record, as built by `InMemoryDatabase.create_review`. -/
structure Review where
  id : ℕ
  product_id : ℕ
  user_id : ℤ
  rating : ℚ
  created_at : String
  helpful_count : ℕ
deriving DecidableEq

/-- Python's `round` to an integer: round half to even. -/
def pyRound (x : ℚ) : ℤ :=
  let f := ⌊x⌋
  let r := x - f
  if r < 1 / 2 then f
  else if 1 / 2 < r then f + 1
  else if f % 2 = 0 then f else f + 1

/-- Python's `round(x, 2)`: round to two decimal places. -/
def round2 (x : ℚ) : ℚ :=
  (pyRound (x * 100) : ℚ) / 100

/-! ## Pagination stage (`paginate` in `app/routers/products.py`) -/

/-- The dictionary returned by `paginate`. -/
structure Page (α : Type) where
  items : List α
  total : ℕ
  page : ℕ
  page_size : ℕ
  total_pages : ℕ
  has_next : Bool
  has_previous : Bool
deriving DecidableEq

/-- `paginate(items, page, page_size)` from `app/routers/products.py`.
`items[start:end]` is `take page_size (drop start)`; route validation
guarantees `page ≥ 1`, `page_size ≥ 1`, so the natural subtraction in
`start` agrees with the source. -/
def paginate {α : Type} (items : List α) (page page_size : ℕ) : Page α :=
  let total := items.length
  let total_pages := if 0 < page_size then (total + page_size - 1) / page_size else 1
  let start := (page - 1) * page_size
  { items := (items.drop start).take page_size
    total := total
    page := page
    page_size := page_size
    total_pages := total_pages
    has_next := decide (page < total_pages)
    has_previous := decide (1 < page) }

end OnlineStore

namespace OnlineStore

/-! ### Pagination lemmas -/

theorem total_le_totalPages_mul (total ps : ℕ) (hps : 1 ≤ ps) :
    total ≤ ((total + ps - 1) / ps) * ps := by
  have h1 : ps * ((total + ps - 1) / ps) + (total + ps - 1) % ps = total + ps - 1 :=
    Nat.div_add_mod _ _
  have h2 : (total + ps - 1) % ps < ps := Nat.mod_lt _ hps
  rw [Nat.mul_comm]
  generalize hm : ps * ((total + ps - 1) / ps) = m at h1
  omega

theorem totalPages_mul_lt_total (total ps : ℕ) (hps : 1 ≤ ps) (ht : 1 ≤ total) :
    (((total + ps - 1) / ps) - 1) * ps < total := by
  have key : ∀ q : ℕ, q * ps ≤ total + ps - 1 → (q - 1) * ps < total := by
    intro q hq
    rcases Nat.eq_zero_or_pos q with rfl | hq1
    · simpa using ht
    · have h3 : (q - 1) * ps + ps = q * ps := by
        have hq2 : q - 1 + 1 = q := Nat.succ_pred_eq_of_pos hq1
        calc (q - 1) * ps + ps = (q - 1 + 1) * ps := by ring
          _ = q * ps := by rw [hq2]
      generalize hqs : q * ps = m at hq h3
      generalize hks : (q - 1) * ps = k at h3 ⊢
      omega
  exact key _ (Nat.div_mul_le_self _ _)

theorem totalPages_eq_ceil (total ps : ℕ) (hps : 1 ≤ ps) :
    (total + ps - 1) / ps = ⌈(total : ℚ) / (ps : ℚ)⌉₊ := by
  have hps0 : (0 : ℚ) < (ps : ℚ) := by exact_mod_cast hps
  refine le_antisymm ?_ ?_
  · by_cases ht : total = 0
    · subst ht
      have h : (0 + ps - 1) / ps = 0 := Nat.div_eq_of_lt (by omega)
      rw [h]
      exact Nat.zero_le _
    · have ht1 : 1 ≤ total := by omega
      have hlt := totalPages_mul_lt_total total ps hps ht1
      by_cases hn : (total + ps - 1) / ps = 0
      · simp [hn]
      · have hn1 : 1 ≤ (total + ps - 1) / ps := Nat.pos_of_ne_zero hn
        have hq : (((((total + ps - 1) / ps) - 1 : ℕ) : ℚ)) < (total : ℚ) / (ps : ℚ) := by
          rw [lt_div_iff₀ hps0]
          exact_mod_cast hlt
        exact Nat.le_of_pred_lt ((Nat.lt_ceil).mpr hq)
  · refine Nat.ceil_le.mpr ?_
    rw [div_le_iff₀ hps0]
    exact_mod_cast total_le_totalPages_mul total ps hps

theorem foldr_pages_take {α : Type} (ps : ℕ) :
    ∀ (m s : ℕ) (l : List α),
      (List.range' (s + 1) m).foldr (fun p acc => ((l.drop ((p - 1) * ps)).take ps) ++ acc) []
        = (l.drop (s * ps)).take (m * ps) := by
  intro m
  induction m with
  | zero => intro s l; simp
  | succ m ih =>
    intro s l
    rw [List.range'_succ, List.foldr_cons]
    have hshift : List.range' (s + 1 + 1) m = List.range' ((s + 1) + 1) m := rfl
    rw [hshift, ih (s + 1) l]
    have harith : (m + 1) * ps = ps + m * ps := by ring
    rw [Nat.add_sub_cancel, harith, List.take_add]
    have hdd : (l.drop (s * ps)).drop ps = l.drop ((s + 1) * ps) := by
      rw [List.drop_drop]
      congr 1
      ring
    rw [hdd]

/-- Concatenating the item slices of pages `1 .. m` yields the first
`m * ps` elements of the list. -/
theorem pages_concat_eq_take {α : Type} (items : List α) (ps m : ℕ) :
    (List.range' 1 m).foldr (fun p acc => (paginate items p ps).items ++ acc) []
      = items.take (m * ps) := by
  have h := foldr_pages_take ps m 0 items
  simp only [Nat.zero_add, Nat.zero_mul, List.drop_zero] at h
  rw [← h]
  simp only [paginate]

/-- **C4.**  For every list `items` and every `page_size ≥ 1`: every page's
`items` slice has length at most `page_size`; the reported `total` is the
length of `items`; `total_pages` is `⌈total / page_size⌉`; and
concatenating the `items` slices of pages `1 .. total_pages` in order
reconstructs `items` exactly. -/
theorem paginate_pages_reconstruct {α : Type} (items : List α) (ps : ℕ) (hps : 1 ≤ ps) :
    (∀ page : ℕ, (paginate items page ps).items.length ≤ ps) ∧
    (∀ page : ℕ, (paginate items page ps).total = items.length) ∧
    (∀ page : ℕ, (paginate items page ps).total_pages = ⌈(items.length : ℚ) / (ps : ℚ)⌉₊) ∧
    (List.range' 1 (paginate items 1 ps).total_pages).foldr
        (fun p acc => (paginate items p ps).items ++ acc) []
      = items := by
  refine ⟨?_, ?_, ?_, ?_⟩
  · intro page
    simp only [paginate]
    exact List.length_take_le _ _
  · intro page
    simp [paginate]
  · intro page
    have h0 : 0 < ps := hps
    simp only [paginate, if_pos h0]
    exact totalPages_eq_ceil items.length ps hps
  · have h0 : 0 < ps := hps
    rw [pages_concat_eq_take]
    apply List.take_of_length_le
    simp only [paginate, if_pos h0]
    exact total_le_totalPages_mul items.length ps hps

/-- Witness for `paginate_pages_reconstruct` at `items = [10, 20, 30]`,
`page_size = 2`. -/
theorem paginate_pages_reconstruct_witness :
    (List.range' 1 (paginate [10, 20, 30] 1 2).total_pages).foldr
        (fun p acc => (paginate [10, 20, 30] p 2).items ++ acc) []
      = [10, 20, 30] :=
  (paginate_pages_reconstruct [10, 20, 30] 2 (by decide)).2.2.2

/-- **C5.**  For every list, `page_size ≥ 1`, and `page` strictly beyond
`total_pages ≥ 1`, `paginate` returns an empty slice but still reports the
correct `total` and `total_pages`, with `has_next = false` and
`has_previous = true`; it is a normal return of the `Page` record, not an
error. -/
theorem paginate_out_of_range {α : Type} (items : List α) (page ps : ℕ) (hps : 1 ≤ ps)
    (htp : 1 ≤ (paginate items page ps).total_pages)
    (hpage : (paginate items page ps).total_pages < page) :
    (paginate items page ps).items = [] ∧
    (paginate items page ps).total = items.length ∧
    (paginate items page ps).total_pages = ⌈(items.length : ℚ) / (ps : ℚ)⌉₊ ∧
    (paginate items page ps).has_next = false ∧
    (paginate items page ps).has_previous = true := by
  have h0 : 0 < ps := hps
  have htp' : (paginate items page ps).total_pages = (items.length + ps - 1) / ps := by
    simp [paginate, if_pos h0]
  refine ⟨?_, by simp [paginate], ?_, ?_, ?_⟩
  · have hstart : items.length ≤ (page - 1) * ps := by
      have h1 : items.length ≤ ((items.length + ps - 1) / ps) * ps :=
        total_le_totalPages_mul items.length ps hps
      have h2 : (items.length + ps - 1) / ps ≤ page - 1 := by omega
      calc items.length ≤ ((items.length + ps - 1) / ps) * ps := h1
        _ ≤ (page - 1) * ps := Nat.mul_le_mul_right ps h2
    simp only [paginate]
    rw [List.drop_eq_nil_of_le hstart]
    simp
  · rw [htp']
    exact totalPages_eq_ceil items.length ps hps
  · simp only [paginate, decide_eq_false_iff_not, not_lt]
    rw [htp'] at hpage
    simp only [paginate, if_pos h0] at hpage ⊢
    omega
  · simp only [paginate, decide_eq_true_eq]
    rw [htp'] at hpage htp
    omega

/-- Witness for `paginate_out_of_range`: three items, page size 2,
page 5 (beyond the 2 pages). -/
theorem paginate_out_of_range_witness :
    (paginate [10, 20, 30] 5 2).items = ([] : List ℕ) ∧
    (paginate [10, 20, 30] 5 2).has_next = false ∧
    (paginate [10, 20, 30] 5 2).has_previous = true := by
  have h := paginate_out_of_range [10, 20, 30] 5 2 (by decide) (by decide) (by decide)
  exact ⟨h.1, h.2.2.2.1, h.2.2.2.2⟩

/-! ## Filter stage (`apply_filters` in `app/routers/products.py`) -/

/-- The keyword filter arguments of `apply_filters`; every criterion is
independently optional (`None` when not supplied). -/
structure FilterCriteria where
  category_id : Option ℤ := none
  min_price : Option ℚ := none
  max_price : Option ℚ := none
  min_rating : Option ℚ := none
  stock_status : Option StockStatus := none
  seller_id : Option ℤ := none
  has_discount : Option Bool := none
deriving DecidableEq

/-- `apply_filters(products, **filters)` from `app/routers/products.py`.
The source guards `category_id`, `seller_id`, `stock_status` and
`has_discount` with Python truthiness (`if filters.get(...)`) — so an
integer value `0` or a boolean `False` skips the filter — while
`min_price`, `max_price` and `min_rating` are guarded with
`is not None`. -/
def apply_filters (products : List Product) (f : FilterCriteria) : List Product :=
  let result := products
  let result := match f.category_id with
    | some v => if v ≠ 0 then result.filter (fun p => p.category_id == v) else result
    | none => result
  let result := match f.min_price with
    | some v => result.filter (fun p => decide (v ≤ p.final_price))
    | none => result
  let result := match f.max_price with
    | some v => result.filter (fun p => decide (p.final_price ≤ v))
    | none => result
  let result := match f.min_rating with
    | some v => result.filter (fun p => decide (v ≤ p.average_rating))
    | none => result
  let result := match f.stock_status with
    | some s => result.filter (fun p => p.stock_status == s)
    | none => result
  let result := match f.seller_id with
    | some v => if v ≠ 0 then result.filter (fun p => p.seller_id == v) else result
    | none => result
  let result := match f.has_discount with
    | some b => if b then result.filter (fun p => decide (0 < p.discount_percentage)) else result
    | none => result
  result

/-- Modelled from the spec's words for C2: a product satisfies every
*present* criterion of the criteria record — presence being `≠ none`,
with the `has_discount` criterion constraining only when the given flag
is `true`. -/
def satisfies_present (f : FilterCriteria) (p : Product) : Bool :=
  (match f.category_id with | some v => p.category_id == v | none => true) &&
  (match f.min_price with | some v => decide (v ≤ p.final_price) | none => true) &&
  (match f.max_price with | some v => decide (p.final_price ≤ v) | none => true) &&
  (match f.min_rating with | some v => decide (v ≤ p.average_rating) | none => true) &&
  (match f.stock_status with | some s => p.stock_status == s | none => true) &&
  (match f.seller_id with | some v => p.seller_id == v | none => true) &&
  (match f.has_discount with | some b => !b || decide (0 < p.discount_percentage) | none => true)

/-- A single filter criterion, as applied by one guarded pass of
`apply_filters`. -/
inductive Crit where
  | category (v : ℤ)
  | minPrice (v : ℚ)
  | maxPrice (v : ℚ)
  | minRating (v : ℚ)
  | stock (s : StockStatus)
  | seller (v : ℤ)
  | discount
deriving DecidableEq

/-- The predicate a single criterion imposes on a product (each equation
mirrors the corresponding list comprehension in `apply_filters`). -/
def critPred : Crit → Product → Bool
  | .category v => fun p => p.category_id == v
  | .minPrice v => fun p => decide (v ≤ p.final_price)
  | .maxPrice v => fun p => decide (p.final_price ≤ v)
  | .minRating v => fun p => decide (v ≤ p.average_rating)
  | .stock s => fun p => p.stock_status == s
  | .seller v => fun p => p.seller_id == v
  | .discount => fun p => decide (0 < p.discount_percentage)

/-- One single-criterion filter pass. -/
def applyCrit (l : List Product) (c : Crit) : List Product :=
  l.filter (critPred c)

/-- The criteria of a criteria record that `apply_filters` actually
applies, in the order the source applies them (truthiness-guarded for
`category_id`, `seller_id` and `has_discount`). -/
def critsOf (f : FilterCriteria) : List Crit :=
  (match f.category_id with | some v => if v ≠ 0 then [Crit.category v] else [] | none => []) ++
  (match f.min_price with | some v => [Crit.minPrice v] | none => []) ++
  (match f.max_price with | some v => [Crit.maxPrice v] | none => []) ++
  (match f.min_rating with | some v => [Crit.minRating v] | none => []) ++
  (match f.stock_status with | some s => [Crit.stock s] | none => []) ++
  (match f.seller_id with | some v => if v ≠ 0 then [Crit.seller v] else [] | none => []) ++
  (match f.has_discount with | some b => if b then [Crit.discount] else [] | none => [])

set_option maxHeartbeats 1600000 in
theorem apply_filters_eq_foldl (P : List Product) (f : FilterCriteria) :
    apply_filters P f = (critsOf f).foldl applyCrit P := by
  rcases f with ⟨c, mnp, mxp, mnr, ss, sid, hd⟩
  cases c <;> cases mnp <;> cases mxp <;> cases mnr <;> cases ss <;> cases sid <;> cases hd <;>
    simp only [apply_filters, critsOf, applyCrit, critPred, List.foldl_append, List.foldl_cons,
      List.foldl_nil, List.nil_append, List.append_nil] <;>
    (try split_ifs) <;>
    simp [applyCrit, critPred]

theorem foldl_applyCrit_eq_filter :
    ∀ (cs : List Crit) (P : List Product),
      cs.foldl applyCrit P = P.filter (fun p => cs.all (fun c => critPred c p)) := by
  intro cs
  induction cs with
  | nil => intro P; simp
  | cons c cs ih =>
    intro P
    rw [List.foldl_cons, ih (applyCrit P c)]
    simp only [applyCrit, List.filter_filter, List.all_cons]
    apply List.filter_congr
    intro p _
    cases h1 : critPred c p <;> simp [h1]

theorem perm_all_eq {cs cs' : List Crit} (h : cs.Perm cs') (f : Crit → Bool) :
    cs.all f = cs'.all f := by
  induction h with
  | nil => rfl
  | cons x _ ih => simp [List.all_cons, ih]
  | swap x y l =>
    simp only [List.all_cons, ← Bool.and_assoc]
    rw [Bool.and_comm (f y) (f x)]
  | trans _ _ ih1 ih2 => exact ih1.trans ih2

/-- **C9.**  `apply_filters` is commutative in its criteria: applying the
present criteria of `f` as single-criterion passes in any order yields
the same list as `apply_filters(P, f)` with all criteria at once. -/
theorem apply_filters_comm (P : List Product) (f : FilterCriteria) (cs : List Crit)
    (hperm : (critsOf f).Perm cs) :
    cs.foldl applyCrit P = apply_filters P f := by
  rw [apply_filters_eq_foldl, foldl_applyCrit_eq_filter, foldl_applyCrit_eq_filter]
  apply List.filter_congr
  intro p _
  exact (perm_all_eq hperm fun c => critPred c p).symm

/-- A sample product used in concrete witnesses and counterexamples. -/
def sampleProduct : Product :=
  { id := 1
    name := "Mechanical Keyboard"
    category_id := 1
    seller_id := 1
    price := 10
    discount_percentage := 0
    final_price := 10
    stock_status := .in_stock
    average_rating := 4
    review_count := 2
    created_at := "2025-01-15T10:30:00"
    updated_at := "2025-01-15T10:30:00" }

/-- Witness for `apply_filters_comm`: swapping a price filter and a
rating filter yields the same result as applying both at once. -/
theorem apply_filters_comm_witness :
    [Crit.minRating 3, Crit.minPrice 5].foldl applyCrit [sampleProduct]
      = apply_filters [sampleProduct] { min_price := some 5, min_rating := some 3 } :=
  apply_filters_comm [sampleProduct] { min_price := some 5, min_rating := some 3 }
    [Crit.minRating 3, Crit.minPrice 5] (by decide)

/-- **C2, counterexample.**  The claim "`apply_filters(P, C)` keeps exactly
the members of `P` satisfying every present criterion of `C`" fails when
the present `category_id` is `0`: the source tests the criterion by
truthiness and keeps everything, while no product has category `0`. -/
theorem apply_filters_present_counterexample :
    apply_filters [sampleProduct] { category_id := some 0 }
      ≠ [sampleProduct].filter (satisfies_present { category_id := some 0 }) := by
  decide

set_option maxHeartbeats 1600000 in
/-- The conjunction of the single-criterion predicates that
`apply_filters` actually applies agrees with the spec-side "every present
criterion" predicate as soon as any present `category_id` or `seller_id`
is nonzero. -/
theorem all_critsOf_eq_present (f : FilterCriteria) (p : Product)
    (hc : f.category_id ≠ some 0) (hs : f.seller_id ≠ some 0) :
    (critsOf f).all (fun c => critPred c p) = satisfies_present f p := by
  rcases f with ⟨c, mnp, mxp, mnr, ss, sid, hd⟩
  have hc' : c ≠ some 0 := by simpa using hc
  have hs' : sid ≠ some 0 := by simpa using hs
  clear hc hs
  simp only [critsOf, satisfies_present, List.all_append]
  congr 1
  · congr 1
    · congr 1
      · congr 1
        · congr 1
          · congr 1
            · cases c with
              | none => rfl
              | some v =>
                have hv : v ≠ 0 := by simpa using hc'
                simp [hv, critPred]
            · cases mnp <;> simp [critPred]
          · cases mxp <;> simp [critPred]
        · cases mnr <;> simp [critPred]
      · cases ss <;> simp [critPred]
    · cases sid with
      | none => rfl
      | some v =>
        have hv : v ≠ 0 := by simpa using hs'
        simp [hv, critPred]
  · cases hd with
    | none => rfl
    | some b => cases b <;> simp [critPred]

/-- **C2, amended.**  For criteria whose present `category_id` and
`seller_id` are nonzero, `apply_filters(P, C)` is the sublist of `P` of
exactly those products satisfying every present criterion of `C`; an
absent criterion imposes no constraint. -/
theorem apply_filters_characterization (P : List Product) (f : FilterCriteria)
    (hc : f.category_id ≠ some 0) (hs : f.seller_id ≠ some 0) :
    apply_filters P f = P.filter (satisfies_present f) ∧
    (apply_filters P f).Sublist P := by
  have heq : apply_filters P f = P.filter (satisfies_present f) := by
    rw [apply_filters_eq_foldl, foldl_applyCrit_eq_filter]
    apply List.filter_congr
    intro p _
    exact all_critsOf_eq_present f p hc hs
  refine ⟨heq, ?_⟩
  rw [heq]
  exact List.filter_sublist P

/-- Witness for `apply_filters_characterization` at a concrete product
list and criteria record. -/
theorem apply_filters_characterization_witness :
    apply_filters [sampleProduct] { min_rating := some 3, has_discount := some false }
      = [sampleProduct].filter (satisfies_present { min_rating := some 3, has_discount := some false }) ∧
    (apply_filters [sampleProduct] { min_rating := some 3, has_discount := some false }).Sublist
      [sampleProduct] :=
  apply_filters_characterization [sampleProduct]
    { min_rating := some 3, has_discount := some false } (by decide) (by decide)

/-- **C10.**  `apply_filters` tests `category_id` and `seller_id` by
truthiness: a present value `0` imposes no constraint; `min_price`,
`max_price` and `min_rating` are tested for presence, so a present `0`
does constrain (the corresponding comparison is applied), as the last
conjunct shows on a product with positive final price. -/
theorem apply_filters_truthiness (P : List Product) :
    apply_filters P { category_id := some 0 } = P ∧
    apply_filters P { seller_id := some 0 } = P ∧
    apply_filters P { min_price := some 0 }
      = P.filter (fun p => decide ((0 : ℚ) ≤ p.final_price)) ∧
    apply_filters P { max_price := some 0 }
      = P.filter (fun p => decide (p.final_price ≤ (0 : ℚ))) ∧
    apply_filters P { min_rating := some 0 }
      = P.filter (fun p => decide ((0 : ℚ) ≤ p.average_rating)) ∧
    apply_filters [sampleProduct] { max_price := some 0 } = [] := by
  refine ⟨?_, ?_, ?_, ?_, ?_, by decide⟩ <;> simp [apply_filters]

/-! ## Sort stage (`apply_sorting` in `app/routers/products.py`) -/

/-- Sort direction enum from `app/schemas/common.py` (`SortOrder`). -/
inductive SortOrder where
  | asc
  | desc
deriving DecidableEq

/-- Sort key enum from `app/schemas/common.py` (`ProductSortBy`). -/
inductive ProductSortBy where
  | price
  | rating
  | name
  | created_at
  | discount
  | review_count
deriving DecidableEq

/-- Python's `sorted(l, key=key, reverse=reverse)`: a stable sort,
ascending in the key, with `reverse=True` giving the stable descending
order.  Modelled by `List.insertionSort` (a stable sort) on the
corresponding total preorder. -/
def sortBy {β : Type} [LinearOrder β] (key : Product → β) (reverse : Bool)
    (l : List Product) : List Product :=
  if reverse then l.insertionSort (fun a b => key b ≤ key a)
  else l.insertionSort (fun a b => key a ≤ key b)

/-- `apply_sorting(products, sort_by, order)` from
`app/routers/products.py`.  `reverse` is `order == SortOrder.DESC`; the
key functions mirror `key_map` (name is compared case-insensitively via
`lower()`, price on `final_price`, timestamps as ISO strings). -/
def apply_sorting (products : List Product) (sort_by : ProductSortBy)
    (order : SortOrder) : List Product :=
  let reverse := decide (order = SortOrder.desc)
  match sort_by with
  | .price => sortBy (fun p => p.final_price) reverse products
  | .rating => sortBy (fun p => p.average_rating) reverse products
  | .name => sortBy (fun p => p.name.toLower) reverse products
  | .created_at => sortBy (fun p => p.created_at) reverse products
  | .discount => sortBy (fun p => p.discount_percentage) reverse products
  | .review_count => sortBy (fun p => p.review_count) reverse products

/-- The sort-key value `apply_sorting` compares under a given sort key
(numeric keys on the left, string keys on the right). -/
def sortKey : ProductSortBy → Product → ℚ ⊕ String
  | .price => fun p => Sum.inl p.final_price
  | .rating => fun p => Sum.inl p.average_rating
  | .name => fun p => Sum.inr p.name.toLower
  | .created_at => fun p => Sum.inr p.created_at
  | .discount => fun p => Sum.inl p.discount_percentage
  | .review_count => fun p => Sum.inl (p.review_count : ℚ)

theorem sortBy_pair_stable {β : Type} [LinearOrder β] (key : Product → β) (rev : Bool)
    {a b : Product} {P : List Product} (h : [a, b].Sublist P) (hk : key a = key b) :
    [a, b].Sublist (sortBy key rev P) := by
  cases rev with
  | false =>
    simpa [sortBy] using
      List.pair_sublist_insertionSort (r := fun x y => key x ≤ key y) (le_of_eq hk) h
  | true =>
    simpa [sortBy] using
      List.pair_sublist_insertionSort (r := fun x y => key y ≤ key x) (le_of_eq hk.symm) h

/-- **C3.**  `apply_sorting` is stable for every supported key and both
directions: two products of `P` with equal sort key appear in the output
in the same relative order as in `P`. -/
theorem apply_sorting_stable (P : List Product) (sb : ProductSortBy) (ord : SortOrder)
    (a b : Product) (h : [a, b].Sublist P) (hk : sortKey sb a = sortKey sb b) :
    [a, b].Sublist (apply_sorting P sb ord) := by
  cases sb with
  | price =>
    simp only [sortKey, Sum.inl.injEq] at hk
    exact sortBy_pair_stable _ _ h hk
  | rating =>
    simp only [sortKey, Sum.inl.injEq] at hk
    exact sortBy_pair_stable _ _ h hk
  | name =>
    simp only [sortKey, Sum.inr.injEq] at hk
    exact sortBy_pair_stable _ _ h hk
  | created_at =>
    simp only [sortKey, Sum.inr.injEq] at hk
    exact sortBy_pair_stable _ _ h hk
  | discount =>
    simp only [sortKey, Sum.inl.injEq] at hk
    exact sortBy_pair_stable _ _ h hk
  | review_count =>
    simp only [sortKey, Sum.inl.injEq, Nat.cast_inj] at hk
    exact sortBy_pair_stable _ _ h hk

/-- A second sample product sharing `sampleProduct`'s final price, for
the stability witness. -/
def sampleProduct2 : Product :=
  { sampleProduct with id := 2, name := "Wireless Mouse", average_rating := 5 }

/-- Witness for `apply_sorting_stable`: two distinct products with equal
final price keep their input order under a descending price sort. -/
theorem apply_sorting_stable_witness :
    [sampleProduct, sampleProduct2].Sublist
      (apply_sorting [sampleProduct, sampleProduct2] .price .desc) :=
  apply_sorting_stable [sampleProduct, sampleProduct2] .price .desc
    sampleProduct sampleProduct2 (List.Sublist.refl _) rfl

/-! ## Recommendation service (`app/services/recommendation.py`) -/

/-- `db.get_product(product_id)`: dict lookup by unique id, modelled as
`find?` over the insertion-ordered value list. -/
def get_product (products : List Product) (product_id : ℕ) : Option Product :=
  products.find? (fun p => p.id == product_id)

/-- `db.get_products_by_category(category_id)`: value scan in insertion
order. -/
def get_products_by_category (products : List Product) (category_id : ℤ) : List Product :=
  products.filter (fun p => p.category_id == category_id)

/-- The nested `calculate_score` of
`RecommendationService.get_similar_products`.  A stored product always
carries `final_price`, so the `p.get("final_price", p.get("price", 0))`
fallback is the field itself. -/
def calculate_score (product_price : ℚ) (p : Product) : ℚ :=
  let p_price := p.final_price
  let rating := p.average_rating
  let price_score : ℚ :=
    if 0 < product_price then max 0 (1 - |p_price - product_price| / product_price) * 2
    else 0
  rating + price_score

/-- `RecommendationService.get_similar_products(product_id, limit,
include_same_seller)`: resolve the reference product (empty list when
absent), scan its category, drop itself and optionally the same seller,
score, stable-sort the `(product, score)` pairs by score descending
(`scored.sort(key=..., reverse=True)`), truncate, and project. -/
def get_similar_products (products : List Product) (product_id : ℕ) (limit : ℕ)
    (include_same_seller : Bool) : List Product :=
  match get_product products product_id with
  | none => []
  | some product =>
    let category_id := product.category_id
    let product_price := product.final_price
    let seller_id := product.seller_id
    let candidates := get_products_by_category products category_id
    let candidates := candidates.filter (fun p => p.id != product_id)
    let candidates := if include_same_seller then candidates
      else candidates.filter (fun p => p.seller_id != seller_id)
    let scored := candidates.map (fun p => (p, calculate_score product_price p))
    let sortedScored := scored.insertionSort (fun x y => y.2 ≤ x.2)
    (sortedScored.take limit).map Prod.fst

/-- Modelled from the spec's words for C1: the similarity score
`average_rating + price_similarity`, where the price bonus is
`max(0, 1 − |candidate − reference| / reference) × 2` when the reference
final price is positive and `0` otherwise. -/
def spec_score (ref_price : ℚ) (p : Product) : ℚ :=
  p.average_rating +
    (if 0 < ref_price then max 0 (1 - |p.final_price - ref_price| / ref_price) * 2 else 0)

/-- Modelled from the spec's words for C1: empty when the reference does
not resolve; otherwise the first `limit` candidates — same category,
without the reference itself nor (unless allowed) its seller — stably
sorted by descending score. -/
def get_similar_spec (products : List Product) (product_id : ℕ) (limit : ℕ)
    (include_same_seller : Bool) : List Product :=
  match get_product products product_id with
  | none => []
  | some ref =>
    let candidates :=
      (products.filter (fun p => p.category_id == ref.category_id)).filter
        (fun p => p.id != product_id)
    let candidates := if include_same_seller then candidates
      else candidates.filter (fun p => p.seller_id != ref.seller_id)
    (candidates.insertionSort
        (fun a b => spec_score ref.final_price b ≤ spec_score ref.final_price a)).take limit

theorem calculate_score_eq_spec (r : ℚ) (p : Product) :
    calculate_score r p = spec_score r p := by
  simp [calculate_score, spec_score]

/-- Stable-sorting `(p, f p)` pairs by descending second component and
projecting is the same as stable-sorting the products by descending
`f`. -/
theorem map_fst_sort_pairs (f : Product → ℚ) (l : List Product) (limit : ℕ) :
    (((l.map (fun p => (p, f p))).insertionSort (fun x y => y.2 ≤ x.2)).take limit).map
        Prod.fst
      = (l.insertionSort (fun a b => f b ≤ f a)).take limit := by
  have h := List.map_insertionSort (r := fun a b : Product => f b ≤ f a)
      (s := fun x y : Product × ℚ => y.2 ≤ x.2) (fun p => (p, f p)) l
      (fun a _ b _ => Iff.rfl)
  rw [← h, ← List.map_take, List.map_map]
  rw [show (Prod.fst ∘ fun p : Product => (p, f p)) = id from funext fun p => rfl,
    List.map_id]

/-- **C1.**  `get_similar_products` returns the empty list when the
product id does not resolve, and otherwise exactly the first `limit`
candidates (same category, excluding the reference and — unless
`include_same_seller` — its seller) stably sorted in descending order of
`average_rating + price-similarity` score. -/
theorem get_similar_products_eq_spec (products : List Product) (product_id limit : ℕ)
    (include_same_seller : Bool) :
    get_similar_products products product_id limit include_same_seller
      = get_similar_spec products product_id limit include_same_seller := by
  unfold get_similar_products get_similar_spec
  cases h : get_product products product_id with
  | none => rfl
  | some ref =>
    simp only [get_products_by_category]
    cases include_same_seller with
    | false =>
      have hf : ¬(false = true) := by simp
      simp only [if_neg hf, calculate_score_eq_spec]
      exact map_fst_sort_pairs (spec_score ref.final_price) _ limit
    | true =>
      simp only [if_pos rfl, calculate_score_eq_spec]
      exact map_fst_sort_pairs (spec_score ref.final_price) _ limit

/-! ## Price-range query (`get_price_range_products` and the
`/recommendations/price-range` handler) -/

/-- The `if category_id: ... else: db.get_all_products()` scoping shared
by the composed queries; Python truthiness treats `0` like `None`. -/
def scope_to_category (products : List Product) (category_id : Option ℤ) : List Product :=
  match category_id with
  | some cid => if cid ≠ 0 then get_products_by_category products cid else products
  | none => products

/-- `RecommendationService.get_price_range_products`: scope to category,
keep `min_price ≤ final_price ≤ max_price`, stable-sort by rating
descending, truncate to `limit`. -/
def get_price_range_products (products : List Product) (min_price max_price : ℚ)
    (category_id : Option ℤ) (limit : ℕ) : List Product :=
  let inCat := scope_to_category products category_id
  let filtered := inCat.filter
    (fun p => decide (min_price ≤ p.final_price) && decide (p.final_price ≤ max_price))
  let sorted := filtered.insertionSort (fun a b => b.average_rating ≤ a.average_rating)
  sorted.take limit

/-- The `/recommendations/price-range` handler `get_by_price_range`
(`app/routers/recommendations.py`): reject an inverted range with a 400
error *before* calling the service, otherwise delegate. -/
def get_by_price_range (products : List Product) (min_price max_price : ℚ)
    (category_id : Option ℤ) (limit : ℕ) : Except String (List Product) :=
  if min_price > max_price then
    Except.error "min_price cannot be greater than max_price."
  else
    Except.ok (get_price_range_products products min_price max_price category_id limit)

instance ratingDescIsTotal :
    IsTotal Product (fun a b => b.average_rating ≤ a.average_rating) :=
  ⟨fun _ _ => le_total _ _⟩

instance ratingDescIsTrans :
    IsTrans Product (fun a b => b.average_rating ≤ a.average_rating) :=
  ⟨fun _ _ _ hab hbc => le_trans hbc hab⟩

/-- **C8.**  An inverted price range is rejected with the invalid-range
error before the store is read (the result does not depend on the store);
for a valid range every returned product's final price lies in
`[min_price, max_price]`, the result is sorted by rating descending and
has length at most `limit`. -/
theorem price_range_query (s : List Product) (minp maxp : ℚ) (cid : Option ℤ) (lim : ℕ) :
    (maxp < minp →
      get_by_price_range s minp maxp cid lim
          = Except.error "min_price cannot be greater than max_price." ∧
      ∀ s2 : List Product,
        get_by_price_range s minp maxp cid lim = get_by_price_range s2 minp maxp cid lim) ∧
    (minp ≤ maxp →
      get_by_price_range s minp maxp cid lim
          = Except.ok (get_price_range_products s minp maxp cid lim) ∧
      (∀ p ∈ get_price_range_products s minp maxp cid lim,
          minp ≤ p.final_price ∧ p.final_price ≤ maxp) ∧
      (get_price_range_products s minp maxp cid lim).Sorted
          (fun a b => b.average_rating ≤ a.average_rating) ∧
      (get_price_range_products s minp maxp cid lim).length ≤ lim) := by
  constructor
  · intro hlt
    constructor
    · simp [get_by_price_range, if_pos hlt]
    · intro s2
      simp [get_by_price_range, if_pos hlt]
  · intro hle
    have hnot : ¬(maxp < minp) := not_lt.mpr hle
    refine ⟨by simp [get_by_price_range, if_neg hnot], ?_, ?_, ?_⟩
    · intro p hp
      simp only [get_price_range_products] at hp
      have hp1 : p ∈ (scope_to_category s cid).filter
          (fun p => decide (minp ≤ p.final_price) && decide (p.final_price ≤ maxp)) := by
        have hp2 := (List.take_subset _ _) hp
        simpa [List.mem_insertionSort] using hp2
      have := (List.mem_filter.mp hp1).2
      simp only [Bool.and_eq_true, decide_eq_true_eq] at this
      exact this
    · simp only [get_price_range_products]
      exact List.Pairwise.sublist (List.take_sublist _ _)
        (List.sorted_insertionSort _ _)
    · simp only [get_price_range_products]
      exact List.length_take_le _ _

/-- Witness for `price_range_query`: the inverted range `[500, 100]` is
rejected with the error, and on `[1, 20]` every returned product's final
price is in range. -/
theorem price_range_query_witness :
    get_by_price_range [sampleProduct] 500 100 none 10
        = Except.error "min_price cannot be greater than max_price." ∧
    ∀ p ∈ get_price_range_products [sampleProduct] 1 20 none 10,
        (1 : ℚ) ≤ p.final_price ∧ p.final_price ≤ 20 :=
  ⟨((price_range_query [sampleProduct] 500 100 none 10).1 (by norm_num)).1,
   ((price_range_query [sampleProduct] 1 20 none 10).2 (by norm_num)).2.1⟩

/-! ## Entity store (`InMemoryDatabase` in `app/database/memory_db.py`) -/

/-- The store state: the `products` and `reviews` dicts as
insertion-ordered lists plus the auto-increment counters.  The other
collections (users, sellers, categories, api keys) are immutable after
seeding and play no role in the claims. -/
structure DB where
  products : List Product
  reviews : List Review
  product_counter : ℕ
  review_counter : ℕ
deriving DecidableEq

/-- The empty store (`InMemoryDatabase.__init__` / `clear_all`). -/
def emptyDB : DB :=
  { products := [], reviews := [], product_counter := 0, review_counter := 0 }

/-- The product payload the router hands to `db.create_product`: the
validated `ProductCreate` body plus the authenticated `seller_id`. -/
structure ProductData where
  name : String
  category_id : ℤ
  seller_id : ℤ
  price : ℚ
  discount_percentage : ℚ
  stock_status : StockStatus
deriving DecidableEq

/-- `InMemoryDatabase.create_product`: assign the next id, set
timestamps and zero aggregates, compute
`final_price = round(price * (1 - discount / 100), 2)`, and insert.
`now` stands for `datetime.now().isoformat()`. -/
def create_product (db : DB) (data : ProductData) (now : String) : Product × DB :=
  let product_id := db.product_counter + 1
  let product : Product :=
    { id := product_id
      name := data.name
      category_id := data.category_id
      seller_id := data.seller_id
      price := data.price
      discount_percentage := data.discount_percentage
      final_price := round2 (data.price * (1 - data.discount_percentage / 100))
      stock_status := data.stock_status
      average_rating := 0
      review_count := 0
      created_at := now
      updated_at := now }
  (product, { db with products := db.products ++ [product], product_counter := product_id })

/-- The partial-update payload (`ProductUpdate` schema): only provided
fields are merged. -/
structure ProductUpdateData where
  name : Option String := none
  category_id : Option ℤ := none
  price : Option ℚ := none
  discount_percentage : Option ℚ := none
  stock_status : Option StockStatus := none
deriving DecidableEq

/-- The body of `InMemoryDatabase.update_product` on the found record:
`product.update(product_data)` merges the provided fields, the update
timestamp is refreshed, and `final_price` is recomputed from the merged
`price` and `discount_percentage`. -/
def merge_update (p : Product) (u : ProductUpdateData) (now : String) : Product :=
  let merged : Product :=
    { p with
      name := u.name.getD p.name
      category_id := u.category_id.getD p.category_id
      price := u.price.getD p.price
      discount_percentage := u.discount_percentage.getD p.discount_percentage
      stock_status := u.stock_status.getD p.stock_status
      updated_at := now }
  { merged with
    final_price := round2 (merged.price * (1 - merged.discount_percentage / 100)) }

/-- `InMemoryDatabase.update_product`: `None` when the id is absent;
otherwise the stored record is replaced in place (dict entry update) by
the merged record, which is also returned. -/
def update_product (db : DB) (product_id : ℕ) (u : ProductUpdateData) (now : String) :
    Option Product × DB :=
  match db.products.find? (fun p => p.id == product_id) with
  | none => (none, db)
  | some p =>
    let p2 := merge_update p u now
    (some p2,
      { db with products := db.products.map (fun q => if q.id = product_id then p2 else q) })

/-- `InMemoryDatabase.delete_product`: remove the product and every
review referencing it (cascade); report whether the id existed. -/
def delete_product (db : DB) (product_id : ℕ) : Bool × DB :=
  if db.products.any (fun p => p.id == product_id) then
    (true,
      { db with
        products := db.products.filter (fun p => !(p.id == product_id))
        reviews := db.reviews.filter (fun r => !(r.product_id == product_id)) })
  else (false, db)

/-- The aggregates `update_product_rating` writes into the product:
rounded mean rating and count when reviews exist, `0.0` / `0`
otherwise. -/
def recompute_rating (reviews : List Review) (p : Product) : Product :=
  let product_reviews := reviews.filter (fun r => r.product_id == p.id)
  if product_reviews.isEmpty then
    { p with average_rating := 0, review_count := 0 }
  else
    { p with
      average_rating := round2 ((product_reviews.map Review.rating).sum / product_reviews.length)
      review_count := product_reviews.length }

/-- `InMemoryDatabase.update_product_rating`: no-op when the id is
absent, otherwise rewrite the (unique) matching dict entry's
aggregates. -/
def update_product_rating (db : DB) (product_id : ℕ) : DB :=
  if db.products.any (fun p => p.id == product_id) then
    { db with
      products := db.products.map
        (fun p => if p.id = product_id then recompute_rating db.reviews p else p) }
  else db

/-- The review payload of `db.create_review`. -/
structure ReviewData where
  product_id : ℕ
  user_id : ℤ
  rating : ℚ
deriving DecidableEq

/-- `InMemoryDatabase.create_review`: assign the next id, set timestamp
and zero helpful count, insert, then recompute the referenced product's
rating aggregates. -/
def create_review (db : DB) (data : ReviewData) (now : String) : Review × DB :=
  let review_id := db.review_counter + 1
  let review : Review :=
    { id := review_id
      product_id := data.product_id
      user_id := data.user_id
      rating := data.rating
      created_at := now
      helpful_count := 0 }
  let db1 := { db with reviews := db.reviews ++ [review], review_counter := review_id }
  (review, update_product_rating db1 data.product_id)

/-! ## C6: `final_price` invariant -/

/-- Payload of the C6 scenario: `price=100`, `discount_percentage=25`. -/
def sampleCreate : ProductData :=
  { name := "Test Laptop", category_id := 1, seller_id := 1, price := 100,
    discount_percentage := 25, stock_status := .in_stock }

/-- Partial update setting only `discount_percentage := 50`. -/
def discountTo50 : ProductUpdateData := { discount_percentage := some 50 }

/-- The store after creating the C6 scenario product. -/
def dbAfterCreate : DB := (create_product emptyDB sampleCreate "t1").2

/-- **C6.**  After every `create_product` and every `update_product`, the
stored product's `final_price` equals
`round(price * (1 - discount_percentage / 100), 2)`; concretely, creating
with `price=100, discount_percentage=25` stores `final_price=75`, and
updating only `discount_percentage` to `50` stores `final_price=50` with
`price` still `100`. -/
theorem final_price_recomputed :
    (∀ (db : DB) (data : ProductData) (now : String),
        (create_product db data now).1.final_price
            = round2 ((create_product db data now).1.price
                * (1 - (create_product db data now).1.discount_percentage / 100)) ∧
        (create_product db data now).1 ∈ (create_product db data now).2.products) ∧
    (∀ (db : DB) (pid : ℕ) (u : ProductUpdateData) (now : String) (p2 : Product),
        (update_product db pid u now).1 = some p2 →
        p2.final_price = round2 (p2.price * (1 - p2.discount_percentage / 100)) ∧
        p2 ∈ (update_product db pid u now).2.products) ∧
    (create_product emptyDB sampleCreate "t1").1.final_price = 75 ∧
    (update_product dbAfterCreate 1 discountTo50 "t2").2.products.map
        (fun p => (p.price, p.final_price)) = [(100, 50)] := by
  refine ⟨?_, ?_, ?_, ?_⟩
  · intro db data now
    exact ⟨rfl, by simp [create_product]⟩
  · intro db pid u now p2 h
    cases hf : db.products.find? (fun p => p.id == pid) with
    | none => simp [update_product, hf] at h
    | some p =>
      simp only [update_product, hf] at h ⊢
      obtain rfl : merge_update p u now = p2 := by simpa using h
      constructor
      · simp [merge_update]
      · have hpmem : p ∈ db.products := List.mem_of_find?_eq_some hf
        have hpid := List.find?_some hf
        have hpid2 : p.id = pid := by simpa using hpid
        refine List.mem_map.mpr ⟨p, hpmem, ?_⟩
        simp [hpid2]
  · simp [create_product, emptyDB, sampleCreate]
    norm_num [round2, pyRound]
  · simp [update_product, dbAfterCreate, create_product, emptyDB, sampleCreate,
      discountTo50, merge_update, List.find?]
    norm_num [round2, pyRound]

/-- The stored record after the C6 scenario update. -/
def updatedSample : Product :=
  { id := 1, name := "Test Laptop", category_id := 1, seller_id := 1, price := 100,
    discount_percentage := 50, final_price := 50, stock_status := .in_stock,
    average_rating := 0, review_count := 0, created_at := "t1", updated_at := "t2" }

/-- Witness for `final_price_recomputed`: the update branch applied to
the concrete scenario store. -/
theorem final_price_recomputed_witness :
    updatedSample.final_price
        = round2 (updatedSample.price * (1 - updatedSample.discount_percentage / 100)) ∧
    updatedSample ∈ (update_product dbAfterCreate 1 discountTo50 "t2").2.products :=
  final_price_recomputed.2.1 dbAfterCreate 1 discountTo50 "t2" updatedSample
    (by
      simp [update_product, dbAfterCreate, create_product, emptyDB, sampleCreate,
        discountTo50, merge_update, List.find?, updatedSample]
      norm_num [round2, pyRound])

/-! ## C7: rating-aggregate invariant -/

/-- A product's aggregates agree with the reviews currently referencing
it: rounded mean rating (`0` when none) and count. -/
def product_agg_ok (reviews : List Review) (p : Product) : Prop :=
  let prs := reviews.filter (fun r => r.product_id == p.id)
  p.average_rating
      = (if prs.isEmpty then 0 else round2 ((prs.map Review.rating).sum / prs.length)) ∧
  p.review_count = prs.length

/-- Every product in the store has correct rating aggregates. -/
def rating_invariant (db : DB) : Prop :=
  ∀ p ∈ db.products, product_agg_ok db.reviews p

/-- The operations the C7 claim quantifies over. -/
inductive RevOp where
  | addReview (data : ReviewData) (now : String)
  | removeProduct (product_id : ℕ)

def apply_rev_op (db : DB) : RevOp → DB
  | .addReview data now => (create_review db data now).2
  | .removeProduct pid => (delete_product db pid).2

def apply_rev_ops (db : DB) (ops : List RevOp) : DB :=
  ops.foldl apply_rev_op db

theorem agg_ok_append_ne (reviews : List Review) (r : Review) (p : Product)
    (h : product_agg_ok reviews p) (hne : r.product_id ≠ p.id) :
    product_agg_ok (reviews ++ [r]) p := by
  have hf : (reviews ++ [r]).filter (fun x => x.product_id == p.id)
      = reviews.filter (fun x => x.product_id == p.id) := by
    rw [List.filter_append]
    have hb : (r.product_id == p.id) = false := by simpa using hne
    simp [List.filter, hb]
  simp only [product_agg_ok] at h ⊢
  rw [hf]
  exact h

theorem agg_ok_recompute (reviews : List Review) (p : Product) :
    product_agg_ok reviews (recompute_rating reviews p) := by
  simp only [product_agg_ok, recompute_rating]
  by_cases h : (reviews.filter (fun r => r.product_id == p.id)).isEmpty
  · simp only [if_pos h]
    have hlen : (reviews.filter (fun r => r.product_id == p.id)).length = 0 := by
      simpa [List.isEmpty_iff, List.length_eq_zero] using h
    simp [h, hlen]
  · simp only [if_neg h]
    simp [h]

theorem rating_invariant_step (db : DB) (op : RevOp) (h : rating_invariant db) :
    rating_invariant (apply_rev_op db op) := by
  cases op with
  | addReview data now =>
    intro p hp
    simp only [apply_rev_op, create_review] at hp ⊢
    by_cases hany : (db.products.any (fun q => q.id == data.product_id)) = true
    · simp only [update_product_rating, if_pos hany] at hp ⊢
      obtain ⟨q, hq, rfl⟩ := List.mem_map.mp hp
      by_cases hid : q.id = data.product_id
      · simp only [if_pos hid]
        exact agg_ok_recompute _ _
      · simp only [if_neg hid]
        exact agg_ok_append_ne _ _ _ (h q hq) (fun hh => hid hh.symm)
    · simp only [update_product_rating, if_neg hany] at hp ⊢
      have hne : p.id ≠ data.product_id := by
        intro hh
        exact hany (List.any_eq_true.mpr ⟨p, hp, by simp [hh]⟩)
      exact agg_ok_append_ne _ _ _ (h p hp) (fun hh => hne hh.symm)
  | removeProduct pid =>
    intro p hp
    by_cases hany : (db.products.any (fun q => q.id == pid)) = true
    · simp only [apply_rev_op, delete_product, if_pos hany] at hp ⊢
      have hmem := List.mem_filter.mp hp
      have hpid : p.id ≠ pid := by simpa using hmem.2
      have hagg := h p hmem.1
      simp only [product_agg_ok] at hagg ⊢
      have hf : (db.reviews.filter (fun r => !(r.product_id == pid))).filter
            (fun r => r.product_id == p.id)
          = db.reviews.filter (fun r => r.product_id == p.id) := by
        rw [List.filter_filter]
        apply List.filter_congr
        intro r _
        by_cases hr : r.product_id = p.id
        · simp [hr, hpid]
        · simp [hr]
      rw [hf]
      exact hagg
    · simp only [apply_rev_op, delete_product, if_neg hany] at hp ⊢
      exact h p hp

/-- The store after creating a fresh product and reviewing it with
ratings `[5, 5, 4]`. -/
def reviewedDB : DB :=
  let db1 := (create_product emptyDB sampleCreate "t1").2
  let db2 := (create_review db1 { product_id := 1, user_id := 1, rating := 5 } "t2").2
  let db3 := (create_review db2 { product_id := 1, user_id := 2, rating := 5 } "t3").2
  (create_review db3 { product_id := 1, user_id := 3, rating := 4 } "t4").2

/-- **C7.**  The rating-aggregate invariant (mean of the referencing
reviews' ratings rounded to 2 decimals, `0.0` when none, and their
count) is preserved by every sequence of `create_review` and
`delete_product` operations; concretely, a fresh product reviewed with
ratings `[5, 5, 4]` stores `average_rating = 4.67` and
`review_count = 3`. -/
theorem rating_aggregates_invariant :
    (∀ (db : DB) (ops : List RevOp), rating_invariant db →
        rating_invariant (apply_rev_ops db ops)) ∧
    reviewedDB.products.map (fun p => (p.average_rating, p.review_count))
        = [(4.67, 3)] := by
  constructor
  · intro db ops
    induction ops generalizing db with
    | nil => intro h; exact h
    | cons op ops ih =>
      intro h
      exact ih _ (rating_invariant_step db op h)
  · simp [reviewedDB, create_review, update_product_rating, recompute_rating,
      create_product, emptyDB, sampleCreate, List.filter]
    norm_num [round2, pyRound]

/-- Witness for `rating_aggregates_invariant`: the invariant holds of the
empty store and is preserved across a concrete operation sequence. -/
theorem rating_aggregates_invariant_witness :
    rating_invariant (apply_rev_ops emptyDB
      [RevOp.addReview { product_id := 1, user_id := 1, rating := 5 } "t1",
       RevOp.removeProduct 1]) :=
  rating_aggregates_invariant.1 emptyDB
    [RevOp.addReview { product_id := 1, user_id := 1, rating := 5 } "t1",
     RevOp.removeProduct 1]
    (by intro p hp; simp [emptyDB] at hp)

end OnlineStore
